import Mathlib

/-!
Verification model of the agent observability notebook
(evaluation-and-observability, Example-Observability-for-Agent-Applications).

The notebook defines an invoke_agent function that calls the Bedrock agent
runtime API, iterates the returned completion event stream, collects the
agent answer from chunk events and the trace dictionaries from trace events,
raises on unexpected events or a missing terminal chunk, stamps two timing
keys into the ResponseMetadata dictionary, and returns a triple.  It also
defines two feedback-collection functions whose bodies are pass.  All three
are wrapped by the watch decorator of the external observability module
(BedrockLogs), which is not part of the sources and is therefore modelled
from the specification.

Python dictionaries are modelled as insertion-ordered association lists,
bytes as lists of naturals, wall-clock time as a supplied sequence
ts : Nat -> Int of readings consumed one by one, and raised exceptions as
an error monad (Except).
-/

/-- Key stamped into ResponseMetadata for the first-token latency. -/
def timeToFirstTokenKey : String := "time_to_first_token"

/-- Key stamped into ResponseMetadata for the last-token latency. -/
def timeToLastTokenKey : String := "time_to_last_token"

/-- Key stamped into each collected trace dictionary. -/
def startTraceTimeKey : String := "start_trace_time"

/-- Message of the exception raised on an event that is neither chunk nor trace. -/
def unexpectedEventMsg : String := "Unexpected event."

/-- Message of the exception raised when no chunk event arrived. -/
def endEventNotReceivedMsg : String := "End event not received."

/-- Message standing for a Python TypeError (arithmetic on None). -/
def typeErrorMsg : String := "TypeError"

/-- A Python value, as far as the notebook manipulates them. -/
inductive PyVal where
  | none
  | str (s : String)
  | int (n : Int)
  | list (xs : List PyVal)
  | dict (kvs : List (String × PyVal))

/-- A Python dictionary with string keys, in insertion order. -/
abbrev PyDict := List (String × PyVal)

/-- One event of the completion event stream.  The loop dispatches on
whether the key chunk is present, else the key trace, else raises; the
stream events of the agent runtime are single-key unions, so an event is a
chunk payload (its bytes), a trace dictionary, or some other value. -/
inductive Event where
  | chunk (bytes : List Nat)
  | trace (t : PyDict)
  | other (v : PyVal)

/-- A raised Python exception, as far as invoke_agent distinguishes them:
a generic Exception with a message and an optional event payload, a
UnicodeDecodeError from bytes.decode, or an error raised by the underlying
agent API. -/
inductive PyErr where
  | exn (msg : String) (payload : Option Event)
  | decodeError (bytes : List Nat)
  | api (msg : String)

/-- Python dict assignment d[k] = v: overwrite the value in place if the key
is present, else append the new key at the end (insertion order). -/
def setKey (d : PyDict) (k : String) (v : PyVal) : PyDict :=
  if d.any (fun p => p.1 = k) then
    d.map (fun p => if p.1 = k then (k, v) else p)
  else
    d ++ [(k, v)]

/-- Python dict lookup d[k] as an Option. -/
def lookupKey (d : PyDict) (k : String) : Option PyVal :=
  match d.find? (fun p => p.1 = k) with
  | some p => some p.2
  | Option.none => Option.none

/-- Keys of a dictionary, in order. -/
def keysOf (d : PyDict) : List String := d.map (fun p => p.1)

/-- Strict UTF-8 decoding of a byte list into characters, following the
standard decoder: ASCII bytes, two- to four-byte sequences with continuation
bytes, overlong encodings, surrogates and out-of-range code points rejected.
Returns Option.none exactly when Python bytes.decode(utf8) raises. -/
def utf8DecodeList : List Nat → Option (List Char)
  | [] => some []
  | b :: rest =>
    if b ≤ 0x7F then
      (utf8DecodeList rest).map (fun cs => Char.ofNat b :: cs)
    else if 0xC0 ≤ b ∧ b ≤ 0xDF then
      match rest with
      | b1 :: rest1 =>
        let r := (b - 0xC0) * 64 + (b1 - 0x80)
        if (0x80 ≤ b1 ∧ b1 ≤ 0xBF) ∧ 0x80 ≤ r then
          (utf8DecodeList rest1).map (fun cs => Char.ofNat r :: cs)
        else Option.none
      | [] => Option.none
    else if 0xE0 ≤ b ∧ b ≤ 0xEF then
      match rest with
      | b1 :: b2 :: rest2 =>
        let r := (b - 0xE0) * 4096 + (b1 - 0x80) * 64 + (b2 - 0x80)
        if (0x80 ≤ b1 ∧ b1 ≤ 0xBF) ∧ (0x80 ≤ b2 ∧ b2 ≤ 0xBF) ∧ 0x800 ≤ r ∧
            (r < 0xD800 ∨ 0xDFFF < r) then
          (utf8DecodeList rest2).map (fun cs => Char.ofNat r :: cs)
        else Option.none
      | _ => Option.none
    else if 0xF0 ≤ b ∧ b ≤ 0xF7 then
      match rest with
      | b1 :: b2 :: b3 :: rest3 =>
        let r := (b - 0xF0) * 262144 + (b1 - 0x80) * 4096 +
          (b2 - 0x80) * 64 + (b3 - 0x80)
        if (0x80 ≤ b1 ∧ b1 ≤ 0xBF) ∧ (0x80 ≤ b2 ∧ b2 ≤ 0xBF) ∧
            (0x80 ≤ b3 ∧ b3 ≤ 0xBF) ∧ 0x10000 ≤ r ∧ r < 0x110000 then
          (utf8DecodeList rest3).map (fun cs => Char.ofNat r :: cs)
        else Option.none
      | _ => Option.none
    else Option.none

/-- Python bytes.decode(utf8): the decoded string, or Option.none when a
UnicodeDecodeError is raised. -/
def decodeUtf8 (bs : List Nat) : Option String :=
  (utf8DecodeList bs).map String.mk

example : decodeUtf8 [104, 105] = some (String.mk [Char.ofNat 104, Char.ofNat 105]) := by
  decide

example : decodeUtf8 [255] = Option.none := by decide

/-- The response returned by the underlying agent API: its ResponseMetadata
dictionary and its completion event stream. -/
structure AgentResponse where
  responseMetadata : PyDict
  completion : List Event

/-- The mutable local state of the event loop in invoke_agent.  The field k
is the index of the next wall-clock reading to be consumed. -/
structure LoopState where
  time_to_first_token : Option Int
  time_at_first_token : Option Int
  agent_answer : Option String
  end_event_received : Bool
  trace_data : List PyDict
  k : Nat

/-- Loop state at entry: all timing variables None, no answer, no end event,
empty trace list; the clock reading with index 0 was consumed by start_time. -/
def initLoopState : LoopState :=
  { time_to_first_token := Option.none
    time_at_first_token := Option.none
    agent_answer := Option.none
    end_event_received := false
    trace_data := []
    k := 1 }

/-- One iteration of the for loop of invoke_agent over one event, with
ts the wall-clock sequence and start_time the reading taken on entry. -/
def step (ts : Nat → Int) (start_time : Int) (st : LoopState) :
    Event → Except PyErr LoopState
  | Event.chunk bytes =>
    let st1 :=
      if st.time_to_first_token = Option.none then
        { st with
          time_at_first_token := some (ts st.k)
          time_to_first_token := some (ts st.k - start_time)
          k := st.k + 1 }
      else st
    match decodeUtf8 bytes with
    | some s =>
      Except.ok { st1 with agent_answer := some s, end_event_received := true }
    | Option.none => Except.error (PyErr.decodeError bytes)
  | Event.trace t =>
    Except.ok
      { st with
        trace_data := st.trace_data ++ [setKey t startTraceTimeKey (PyVal.int (ts st.k))]
        k := st.k + 1 }
  | Event.other v =>
    Except.error (PyErr.exn unexpectedEventMsg (some (Event.other v)))

/-- The for loop of invoke_agent over the event stream.  Returns the result
of the loop together with the suffix of events left unread (empty when the
loop ran to completion, the remaining stream when an exception aborted it). -/
def processEvents (ts : Nat → Int) (start_time : Int) (st : LoopState) :
    List Event → Except PyErr LoopState × List Event
  | [] => (Except.ok st, [])
  | e :: rest =>
    match step ts start_time st e with
    | Except.error err => (Except.error err, rest)
    | Except.ok st1 => processEvents ts start_time st1 rest

/-- The try block of invoke_agent: take start_time, call the API (its result,
success or raised error, is the parameter api), run the event loop, raise if
no chunk event arrived, stamp the two timing keys into ResponseMetadata, and
produce the returned triple. -/
def invokeBody (ts : Nat → Int) (api : Except PyErr AgentResponse) :
    Except PyErr (PyDict × Option String × List PyDict) :=
  let start_time := ts 0
  match api with
  | Except.error e => Except.error e
  | Except.ok agentResponse =>
    match (processEvents ts start_time initLoopState agentResponse.completion).1 with
    | Except.error e => Except.error e
    | Except.ok st =>
      if st.end_event_received = false then
        Except.error (PyErr.exn endEventNotReceivedMsg Option.none)
      else
        match st.time_to_first_token, st.time_at_first_token with
        | some ttf, some taf =>
          Except.ok
            (setKey (setKey agentResponse.responseMetadata timeToFirstTokenKey
                (PyVal.int ttf)) timeToLastTokenKey (PyVal.int (ts st.k - taf)),
              st.agent_answer, st.trace_data)
        | _, _ => Except.error (PyErr.exn typeErrorMsg Option.none)

/-- The except branch of invoke_agent: except Exception as e, raise e.
Errors pass through unmodified, successes pass through unmodified. -/
def tryReraise (x : Except PyErr α) : Except PyErr α :=
  match x with
  | Except.error e => Except.error e
  | Except.ok v => Except.ok v

/-- The invoke_agent function of the notebook (body of the decorated
function): run the try block, re-raise any exception unchanged, and return
the triple (ResponseMetadata, agent_answer, trace_data). -/
def invoke_agent (ts : Nat → Int) (api : Except PyErr AgentResponse) :
    Except PyErr (PyDict × Option String × List PyDict) :=
  tryReraise (invokeBody ts api)

/-- True on chunk events. -/
def isChunk : Event → Bool
  | Event.chunk _ => true
  | _ => false

/-- True on trace events. -/
def isTrace : Event → Bool
  | Event.trace _ => true
  | _ => false

/-- True on events carrying one of the two recognized keys. -/
def chunkOrTrace (e : Event) : Bool := isChunk e || isTrace e

/-- True unless the event is a chunk whose bytes are not valid UTF-8. -/
def chunkDecodes : Event → Bool
  | Event.chunk bs => (decodeUtf8 bs).isSome
  | _ => true

/-- A recognized event whose payload the loop can process without raising. -/
def goodEvent (e : Event) : Bool := chunkOrTrace e && chunkDecodes e

/-- Bytes of the last chunk event of the stream, if any. -/
def lastChunkBytes : List Event → Option (List Nat)
  | [] => Option.none
  | Event.chunk bs :: rest => some ((lastChunkBytes rest).getD bs)
  | _ :: rest => lastChunkBytes rest

/-- The trace dictionaries of the stream, in stream order. -/
def tracePayloads : List Event → List PyDict
  | [] => []
  | Event.trace t :: rest => t :: tracePayloads rest
  | _ :: rest => tracePayloads rest

/-- Number of events preceding the first chunk event, if a chunk occurs. -/
def ticksBeforeFirstChunk : List Event → Option Nat
  | [] => Option.none
  | Event.chunk _ :: _ => some 0
  | _ :: rest => (ticksBeforeFirstChunk rest).map (fun n => n + 1)

/-- Category label of the decorated invoke_agent function. -/
def agentInProdCallType : String := "agent-in-prod"

/-- Category label of the observation-level feedback function. -/
def observationFeedbackCallType : String := "observation-feedback"

/-- Category label of the session-level feedback function. -/
def sessionFeedbackCallType : String := "session-feedback"

/-- Modelled from the spec: one Invocation Record emitted to the sink by the
watch decorator of the external observability module (BedrockLogs), which is
not among the sources.  Fields per the data model: run_id, observation_id,
call_type, captured_input (first positional argument only), captured_output. -/
structure LogRecord where
  call_type : String
  run_id : Nat
  observation_id : Nat
  captured_input : PyVal
  captured_output : PyVal

/-- Modelled from the spec: the state of one BedrockLogs instance over one
logical session: the stable run_id, the counter minting fresh observation
ids, and the append-only sink of emitted records. -/
structure WatchState where
  run_id : Nat
  next_obs : Nat
  sink : List LogRecord

/-- Modelled from the spec: augmentation of the original result tuple with
the newly minted identifiers, appended at the end. -/
def augment (out : PyVal) (rid oid : Nat) : PyVal :=
  match out with
  | PyVal.list xs => PyVal.list (xs ++ [PyVal.int rid, PyVal.int oid])
  | v => PyVal.list [v, PyVal.int rid, PyVal.int oid]

/-- Modelled from the spec: the watch decorator of the external BedrockLogs
observability module (not among the sources).  On each call it mints the
identifiers (the stable run_id of the session and a fresh observation_id),
executes the wrapped callable on all its arguments, and, on success only,
appends one record to the sink whose captured_input is the first positional
argument only, then returns the original result tuple augmented with the
identifiers (when feedback variables are enabled).  If the wrapped callable
raises, the error propagates unchanged and no record is appended. -/
def watch (call_type : String) (feedback_variables : Bool)
    (f : PyVal → List PyVal → Except PyErr PyVal)
    (st : WatchState) (arg1 : PyVal) (rest : List PyVal) :
    Except PyErr PyVal × WatchState :=
  let rid := st.run_id
  let oid := st.next_obs
  match f arg1 rest with
  | Except.error e => (Except.error e, { st with next_obs := st.next_obs + 1 })
  | Except.ok out =>
    let record : LogRecord :=
      { call_type := call_type
        run_id := rid
        observation_id := oid
        captured_input := arg1
        captured_output := out }
    (Except.ok (if feedback_variables then augment out rid oid else out),
      { st with next_obs := st.next_obs + 1, sink := st.sink ++ [record] })

/-- Encoding of the optional agent answer as a Python value. -/
def encodeOptStr : Option String → PyVal
  | Option.none => PyVal.none
  | some s => PyVal.str s

/-- Encoding of the triple returned by invoke_agent as a Python tuple. -/
def encodeTriple (r : PyDict × Option String × List PyDict) : PyVal :=
  PyVal.list [PyVal.dict r.1, encodeOptStr r.2.1, PyVal.list (r.2.2.map PyVal.dict)]

/-- The decorated invoke_agent as called from the notebook: the watch wrapper
around the invoke_agent body, with feedback variables enabled and call type
agent-in-prod.  The first positional argument is the query; the trailing
arguments (agent id, alias id, session id, flags) are rest. -/
def invoke_agent_watched (ts : Nat → Int) (api : Except PyErr AgentResponse)
    (st : WatchState) (arg1 : PyVal) (rest : List PyVal) :
    Except PyErr PyVal × WatchState :=
  watch agentInProdCallType true
    (fun _ _ => (invoke_agent ts api).map encodeTriple) st arg1 rest

/-- Lookup of a key in a Python value that is a dictionary. -/
def PyVal.dictLookup : PyVal → String → Option PyVal
  | PyVal.dict kvs, k => lookupKey kvs k
  | _, _ => Option.none

/-- The observation_level_feedback function of the notebook: body pass
(returns None), decorated by watch with call type observation-feedback. -/
def observation_level_feedback (st : WatchState) (feedback : PyVal) :
    Except PyErr PyVal × WatchState :=
  watch observationFeedbackCallType true (fun _ _ => Except.ok PyVal.none)
    st feedback []

/-- The session_level_feedback function of the notebook: body pass
(returns None), decorated by watch with call type session-feedback. -/
def session_level_feedback (st : WatchState) (feedback : PyVal) :
    Except PyErr PyVal × WatchState :=
  watch sessionFeedbackCallType true (fun _ _ => Except.ok PyVal.none)
    st feedback []

/-- One wrapped call of a logical session: its category label, its body, and
its arguments. -/
structure CallSpec where
  call_type : String
  body : PyVal → List PyVal → Except PyErr PyVal
  arg1 : PyVal
  rest : List PyVal

/-- Modelled from the spec: a logical session is a sequence of wrapped calls
threading one BedrockLogs state.  Returns the (run_id, observation_id) pair
minted for each call, in order, together with the final state. -/
def runSession (st : WatchState) : List CallSpec → List (Nat × Nat) × WatchState
  | [] => ([], st)
  | c :: cs =>
    let r := watch c.call_type true c.body st c.arg1 c.rest
    let rec2 := runSession r.2 cs
    ((st.run_id, st.next_obs) :: rec2.1, rec2.2)

/-- When the loop runs to completion (result ok), no event is left unread. -/
theorem processEvents_ok_rem (ts : Nat → Int) (t0 : Int) (evs : List Event) :
    ∀ st st1 : LoopState, (processEvents ts t0 st evs).1 = Except.ok st1 →
      (processEvents ts t0 st evs).2 = [] := by
  induction evs with
  | nil => intro st st1 _; rfl
  | cons e rest ih =>
    intro st st1 h
    simp only [processEvents] at h ⊢
    cases hstep : step ts t0 st e with
    | error err =>
      simp only [hstep] at h
      exact Except.noConfusion h
    | ok st2 =>
      simp only [hstep] at h ⊢
      exact ih st2 st1 h

/-- Running the loop over a concatenation, when the first part completes. -/
theorem processEvents_append_ok (ts : Nat → Int) (t0 : Int) (xs : List Event) :
    ∀ (ys : List Event) (st st1 : LoopState),
      (processEvents ts t0 st xs).1 = Except.ok st1 →
      processEvents ts t0 st (xs ++ ys) = processEvents ts t0 st1 ys := by
  induction xs with
  | nil =>
    intro ys st st1 h
    simp only [processEvents] at h
    cases h
    rfl
  | cons e rest ih =>
    intro ys st st1 h
    simp only [processEvents, List.cons_append] at h ⊢
    cases hstep : step ts t0 st e with
    | error err =>
      simp only [hstep] at h
      exact Except.noConfusion h
    | ok st2 =>
      simp only [hstep] at h ⊢
      exact ih ys st2 st1 h

/-- A recognized event with decodable payload never makes the loop raise. -/
theorem step_good_not_err (ts : Nat → Int) (t0 : Int) (st : LoopState) (e : Event)
    (h : goodEvent e = true) (err : PyErr) : step ts t0 st e ≠ Except.error err := by
  cases e with
  | chunk bs =>
    simp only [goodEvent, chunkOrTrace, isChunk, isTrace, chunkDecodes,
      Bool.true_or, Bool.true_and] at h
    cases hd : decodeUtf8 bs with
    | none => rw [hd] at h; exact absurd h (by decide)
    | some s =>
      intro hc
      simp only [step, hd] at hc
      exact Except.noConfusion hc
  | trace t =>
    intro hc
    simp only [step] at hc
    exact Except.noConfusion hc
  | other v =>
    simp only [goodEvent, chunkOrTrace, isChunk, isTrace, chunkDecodes,
      Bool.or_self, Bool.false_and] at h
    exact absurd h (by decide)

/-- Over a stream of recognized, decodable events the loop completes. -/
theorem processEvents_good_ok (ts : Nat → Int) (t0 : Int) (evs : List Event) :
    ∀ st : LoopState, evs.all goodEvent = true →
      ∃ st1, processEvents ts t0 st evs = (Except.ok st1, []) := by
  induction evs with
  | nil => intro st _; exact ⟨st, rfl⟩
  | cons e rest ih =>
    intro st h
    simp only [List.all_cons, Bool.and_eq_true] at h
    cases hstep : step ts t0 st e with
    | error err => exact absurd hstep (step_good_not_err ts t0 st e h.1 err)
    | ok st2 =>
      obtain ⟨st1, hrest⟩ := ih st2 h.2
      refine ⟨st1, ?_⟩
      simp only [processEvents, hstep, hrest]

/-- Characterization of the loop state after a completed run: the answer is
the decoding of the last chunk, the end flag records whether a chunk was
seen, the first-token time is write-once and set at the first chunk, and the
collected traces are the trace payloads in stream order, each stamped with a
start time. -/
theorem processEvents_ok_fields (ts : Nat → Int) (t0 : Int) (evs : List Event) :
    ∀ st st1 : LoopState, (processEvents ts t0 st evs).1 = Except.ok st1 →
      (st1.agent_answer = match lastChunkBytes evs with
        | some bs => decodeUtf8 bs
        | Option.none => st.agent_answer) ∧
      (st1.end_event_received = (st.end_event_received || evs.any isChunk)) ∧
      (∀ v, st.time_to_first_token = some v →
        st1.time_to_first_token = some v ∧
        st1.time_at_first_token = st.time_at_first_token) ∧
      (st.time_to_first_token = Option.none →
        st1.time_to_first_token =
          (ticksBeforeFirstChunk evs).map (fun i => ts (st.k + i) - t0) ∧
        st1.time_at_first_token = match ticksBeforeFirstChunk evs with
          | some i => some (ts (st.k + i))
          | Option.none => st.time_at_first_token) ∧
      (∃ cs : List Int,
        st1.trace_data = st.trace_data ++
          List.zipWith (fun t c => setKey t startTraceTimeKey (PyVal.int c))
            (tracePayloads evs) cs ∧
        cs.length = (tracePayloads evs).length) := by
  induction evs with
  | nil =>
    intro st st1 h
    simp only [processEvents] at h
    cases h
    refine ⟨rfl, by simp [List.any_nil], fun v hv => ⟨hv, rfl⟩, ?_, ⟨[], by simp [tracePayloads], rfl⟩⟩
    intro hn
    simp [ticksBeforeFirstChunk, hn]
  | cons e rest ih =>
    intro st st1 h
    cases e with
    | chunk bs =>
      simp only [processEvents, step] at h
      cases hd : decodeUtf8 bs with
      | none =>
        simp only [hd] at h
        exact Except.noConfusion h
      | some s =>
        simp only [hd] at h
        cases httf : st.time_to_first_token with
        | none =>
          rw [if_pos httf] at h
          obtain ⟨ha, he, hm, _, ht⟩ := ih _ st1 h
          refine ⟨?_, ?_, ?_, ?_, ?_⟩
          · cases hl : lastChunkBytes rest with
            | none => simpa [lastChunkBytes, hl, hd] using ha
            | some bs2 => simpa [lastChunkBytes, hl] using ha
          · simpa [List.any_cons, isChunk] using he
          · intro v hv
            exact Option.noConfusion hv
          · intro _
            have hset := hm (ts st.k - t0) rfl
            refine ⟨?_, ?_⟩
            · simpa [ticksBeforeFirstChunk] using hset.1
            · simpa [ticksBeforeFirstChunk] using hset.2
          · simpa [tracePayloads] using ht
        | some v0 =>
          rw [httf, if_neg (fun hc => Option.noConfusion hc)] at h
          obtain ⟨ha, he, hm, _, ht⟩ := ih _ st1 h
          refine ⟨?_, ?_, ?_, ?_, ?_⟩
          · cases hl : lastChunkBytes rest with
            | none => simpa [lastChunkBytes, hl, hd] using ha
            | some bs2 => simpa [lastChunkBytes, hl] using ha
          · simpa [List.any_cons, isChunk] using he
          · intro v hv
            injection hv with hveq
            subst hveq
            have hres := hm v0 httf
            exact ⟨hres.1, hres.2⟩
          · intro hn
            exact Option.noConfusion hn
          · simpa [tracePayloads] using ht
    | trace t =>
      simp only [processEvents, step] at h
      obtain ⟨ha, he, hm, hs, ht⟩ := ih _ st1 h
      refine ⟨?_, ?_, ?_, ?_, ?_⟩
      · simpa [lastChunkBytes] using ha
      · simpa [List.any_cons, isChunk] using he
      · intro v hv
        exact hm v hv
      · intro hn
        have hset := hs hn
        cases hti : ticksBeforeFirstChunk rest with
        | none =>
          rw [hti] at hset
          refine ⟨?_, ?_⟩
          · simpa [ticksBeforeFirstChunk, hti] using hset.1
          · simpa [ticksBeforeFirstChunk, hti] using hset.2
        | some i =>
          rw [hti] at hset
          refine ⟨?_, ?_⟩
          · have : st.k + 1 + i = st.k + (i + 1) := by omega
            simpa [ticksBeforeFirstChunk, hti, this] using hset.1
          · have : st.k + 1 + i = st.k + (i + 1) := by omega
            simpa [ticksBeforeFirstChunk, hti, this] using hset.2
      · obtain ⟨cs, hcs, hlen⟩ := ht
        refine ⟨ts st.k :: cs, ?_, ?_⟩
        · simpa [tracePayloads, List.zipWith, List.append_assoc] using hcs
        · simpa [tracePayloads] using hlen
    | other v =>
      simp only [processEvents, step] at h
      exact Except.noConfusion h

/-- Inversion of a successful invoke_agent call: the loop completed, a chunk
arrived, the timing variables were set, and the returned triple is built from
the final loop state with the two timing keys stamped into the metadata. -/
theorem invoke_agent_ok_inversion (ts : Nat → Int) (md : PyDict) (evs : List Event)
    (md1 : PyDict) (ans : Option String) (td : List PyDict)
    (h : invoke_agent ts (Except.ok ⟨md, evs⟩) = Except.ok (md1, ans, td)) :
    ∃ st1 : LoopState, (processEvents ts (ts 0) initLoopState evs).1 = Except.ok st1 ∧
      st1.end_event_received = true ∧
      (∃ ttf taf, st1.time_to_first_token = some ttf ∧
        st1.time_at_first_token = some taf ∧
        md1 = setKey (setKey md timeToFirstTokenKey (PyVal.int ttf))
          timeToLastTokenKey (PyVal.int (ts st1.k - taf))) ∧
      ans = st1.agent_answer ∧ td = st1.trace_data := by
  simp only [invoke_agent, tryReraise, invokeBody] at h
  cases hp : (processEvents ts (ts 0) initLoopState evs).1 with
  | error e =>
    rw [hp] at h
    exact Except.noConfusion h
  | ok st1 =>
    rw [hp] at h
    refine ⟨st1, rfl, ?_⟩
    cases hend : st1.end_event_received with
    | false => simp [hend] at h
    | true =>
      simp only [hend] at h
      cases httf : st1.time_to_first_token with
      | none => simp [httf] at h
      | some ttf =>
        cases htaf : st1.time_at_first_token with
        | none => simp [httf, htaf] at h
        | some taf =>
          simp only [httf, htaf, Bool.true_eq_false, if_false,
            Except.ok.injEq, Prod.mk.injEq] at h
          exact ⟨rfl, ⟨ttf, taf, rfl, rfl, h.1.symm⟩, h.2.1.symm, h.2.2.symm⟩

/-- A trace event is recognized and decodable. -/
theorem all_trace_good (evs : List Event) (h : evs.all isTrace = true) :
    evs.all goodEvent = true := by
  rw [List.all_eq_true] at h ⊢
  intro e he
  have ht := h e he
  cases e with
  | chunk bs => simp [isTrace] at ht
  | trace t => simp [goodEvent, chunkOrTrace, isChunk, isTrace, chunkDecodes]
  | other v => simp [isTrace] at ht

/-- A stream of trace events contains no chunk event. -/
theorem all_trace_no_chunk (evs : List Event) (h : evs.all isTrace = true) :
    evs.any isChunk = false := by
  rw [List.all_eq_true] at h
  rw [List.any_eq_false]
  intro e he
  have ht := h e he
  cases e with
  | chunk bs => simp [isTrace] at ht
  | trace t => simp [isChunk]
  | other v => simp [isTrace] at ht

/-- A stream containing a chunk event has a last chunk payload. -/
theorem lastChunk_isSome_of_any (evs : List Event) (h : evs.any isChunk = true) :
    ∃ bs, lastChunkBytes evs = some bs := by
  induction evs with
  | nil => simp [List.any_nil] at h
  | cons e rest ih =>
    cases e with
    | chunk bs => exact ⟨(lastChunkBytes rest).getD bs, rfl⟩
    | trace t =>
      simp only [List.any_cons, isChunk, Bool.false_or] at h
      exact ih h
    | other v =>
      simp only [List.any_cons, isChunk, Bool.false_or] at h
      exact ih h

/-- Unfolding of dict lookup over a cons cell. -/
theorem lookupKey_cons (p : String × PyVal) (d : PyDict) (k : String) :
    lookupKey (p :: d) k = if p.1 = k then some p.2 else lookupKey d k := by
  by_cases h : p.1 = k
  · simp [lookupKey, List.find?, h]
  · simp [lookupKey, List.find?, h]

/-- A key absent from a dictionary fails the presence test of setKey. -/
theorem any_false_of_not_mem_keys (d : PyDict) (k : String) (h : k ∉ keysOf d) :
    (d.any fun p => decide (p.1 = k)) = false := by
  rw [List.any_eq_false]
  intro p hp
  simp only [decide_eq_true_eq]
  intro hk
  exact h (by simpa [keysOf, hk] using List.mem_map_of_mem (f := Prod.fst) hp)

/-- Assigning an absent key appends it at the end. -/
theorem setKey_of_not_mem (d : PyDict) (k : String) (v : PyVal) (h : k ∉ keysOf d) :
    setKey d k v = d ++ [(k, v)] := by
  unfold setKey
  rw [if_neg]
  simp [any_false_of_not_mem_keys d k h]

/-- Lookup distributes over concatenated dictionaries. -/
theorem lookupKey_append (d1 d2 : PyDict) (k : String) :
    lookupKey (d1 ++ d2) k = match lookupKey d1 k with
      | some v => some v
      | Option.none => lookupKey d2 k := by
  induction d1 with
  | nil => rfl
  | cons p rest ih =>
    simp only [List.cons_append, lookupKey_cons]
    by_cases hk : p.1 = k
    · simp only [if_pos hk]
    · simp only [if_neg hk]
      exact ih

/-- Overwriting the value at one key leaves lookups at other keys unchanged. -/
theorem lookupKey_map_flip (d : PyDict) (k k1 : String) (v : PyVal) (hne : k1 ≠ k) :
    lookupKey (d.map fun p => if p.1 = k then (k, v) else p) k1 = lookupKey d k1 := by
  induction d with
  | nil => rfl
  | cons p rest ih =>
    simp only [List.map_cons, lookupKey_cons]
    by_cases hk : p.1 = k
    · simp only [if_pos hk]
      rw [if_neg (show ¬((k, v).1 = k1) from fun hc => hne (hc.symm))]
      rw [if_neg (show ¬(p.1 = k1) from fun hc => hne ((hk ▸ hc).symm))]
      exact ih
    · simp only [if_neg hk]
      by_cases hk1 : p.1 = k1
      · simp only [if_pos hk1]
      · simp only [if_neg hk1]
        exact ih

/-- Dict assignment at one key leaves lookups at every other key unchanged. -/
theorem lookupKey_setKey_other (d : PyDict) (k k1 : String) (v : PyVal)
    (hne : k1 ≠ k) : lookupKey (setKey d k v) k1 = lookupKey d k1 := by
  unfold setKey
  by_cases hc : (d.any fun p => decide (p.1 = k)) = true
  · rw [if_pos hc]
    exact lookupKey_map_flip d k k1 v hne
  · rw [if_neg hc, lookupKey_append]
    cases hl : lookupKey d k1 with
    | some w => simp
    | none => simp [lookupKey_cons, lookupKey, Ne.symm hne]

/-- Lookup of a freshly appended key yields the assigned value. -/
theorem lookupKey_setKey_self (d : PyDict) (k : String) (v : PyVal)
    (h : k ∉ keysOf d) : lookupKey (setKey d k v) k = some v := by
  rw [setKey_of_not_mem d k v h, lookupKey_append]
  have hnone : lookupKey d k = Option.none := by
    unfold lookupKey
    cases hf : d.find? fun p => decide (p.1 = k) with
    | none => rfl
    | some p =>
      have hpk := List.find?_some hf
      have hmem := List.mem_of_find?_eq_some hf
      simp only [decide_eq_true_eq] at hpk
      exact absurd (by simpa [keysOf, hpk] using
        List.mem_map_of_mem (f := Prod.fst) hmem) h
  rw [hnone]
  simp [lookupKey_cons, lookupKey]

/-- Assigning an absent key extends the key list by exactly that key. -/
theorem keysOf_setKey_not_mem (d : PyDict) (k : String) (v : PyVal)
    (h : k ∉ keysOf d) : keysOf (setKey d k v) = keysOf d ++ [k] := by
  rw [setKey_of_not_mem d k v h]
  simp [keysOf]

/-- The watch wrapper keeps the session run_id and advances the observation
counter by one on every call, succeeding or not. -/
theorem watch_state_ids (ct : String) (fv : Bool)
    (f : PyVal → List PyVal → Except PyErr PyVal) (st : WatchState)
    (a : PyVal) (r : List PyVal) :
    (watch ct fv f st a r).2.run_id = st.run_id ∧
    (watch ct fv f st a r).2.next_obs = st.next_obs + 1 := by
  unfold watch
  cases f a r <;> simp

/-- The identifier pairs minted over a session are the stable run_id paired
with consecutive observation counters. -/
theorem runSession_ids (cs : List CallSpec) : ∀ st : WatchState,
    (runSession st cs).1 =
      (List.range' st.next_obs cs.length).map (fun n => (st.run_id, n)) := by
  induction cs with
  | nil => intro st; rfl
  | cons c cs2 ih =>
    intro st
    have hw := watch_state_ids c.call_type true c.body st c.arg1 c.rest
    simp only [runSession, List.length_cons, List.range'_succ, List.map_cons]
    rw [ih ((watch c.call_type true c.body st c.arg1 c.rest).2), hw.1, hw.2]

/-- Sample wall clock for concrete runs: reading n is n. -/
def sampleClock : Nat → Int := fun n => (n : Int)

/-- Sample completion stream: one trace event, then one chunk event whose
bytes decode to a two-letter answer. -/
def sampleStream : List Event := [Event.trace [], Event.chunk [104, 105]]

/-- The decoded sample answer. -/
def sampleAnswer : String := "hi"

/-- The triple returned by invoke_agent on the sample stream under the
sample clock, starting from empty metadata. -/
def sampleOut : PyDict × Option String × List PyDict :=
  ([(timeToFirstTokenKey, PyVal.int 2), (timeToLastTokenKey, PyVal.int 1)],
    some sampleAnswer, [[(startTraceTimeKey, PyVal.int 1)]])

example : invoke_agent sampleClock (Except.ok ⟨[], sampleStream⟩) =
    Except.ok sampleOut := rfl

/-- Sample error message for propagation runs. -/
def sampleApiErrMsg : String := "ThrottlingException"

/-- C1: for every event stream in which no chunk event occurs before the
stream is exhausted (the loop runs the stream to the end without a chunk,
so every event is a trace event), invoke_agent raises the generic error
End event not received instead of returning a result. -/
theorem C1_no_chunk_raises_end_event_error (ts : Nat → Int) (md : PyDict)
    (evs : List Event) (h : evs.all isTrace = true) :
    invoke_agent ts (Except.ok ⟨md, evs⟩) =
      Except.error (PyErr.exn endEventNotReceivedMsg Option.none) := by
  obtain ⟨st1, hrun⟩ :=
    processEvents_good_ok ts (ts 0) evs initLoopState (all_trace_good evs h)
  obtain ⟨_, hend, _, _, _⟩ :=
    processEvents_ok_fields ts (ts 0) evs initLoopState st1 (by rw [hrun])
  have hendf : st1.end_event_received = false := by
    rw [hend, all_trace_no_chunk evs h]
    rfl
  simp [invoke_agent, tryReraise, invokeBody, hrun, hendf]

/-- Witness for C1: a stream of one trace event makes invoke_agent raise
End event not received. -/
theorem C1_witness :
    ([Event.trace []] : List Event).all isTrace = true ∧
    invoke_agent sampleClock (Except.ok ⟨[], [Event.trace []]⟩) =
      Except.error (PyErr.exn endEventNotReceivedMsg Option.none) :=
  ⟨rfl, C1_no_chunk_raises_end_event_error sampleClock [] [Event.trace []] rfl⟩

/-- C2: for every event stream containing an event that is neither a chunk
event nor a trace event, invoke_agent raises the generic error Unexpected
event when that event is reached (every earlier event being processed
without raising), and does not return a result. -/
theorem C2_unexpected_event_raises (ts : Nat → Int) (md : PyDict)
    (pre post : List Event) (v : PyVal) (hpre : pre.all goodEvent = true) :
    invoke_agent ts (Except.ok ⟨md, pre ++ Event.other v :: post⟩) =
      Except.error (PyErr.exn unexpectedEventMsg (some (Event.other v))) := by
  obtain ⟨st1, hrun⟩ := processEvents_good_ok ts (ts 0) pre initLoopState hpre
  have happ := processEvents_append_ok ts (ts 0) pre (Event.other v :: post)
    initLoopState st1 (by rw [hrun])
  have hstep : processEvents ts (ts 0) st1 (Event.other v :: post) =
      (Except.error (PyErr.exn unexpectedEventMsg (some (Event.other v))), post) := by
    simp [processEvents, step]
  simp [invoke_agent, tryReraise, invokeBody, happ, hstep]

/-- Witness for C2: a trace event followed by an unrecognized event makes
invoke_agent raise Unexpected event carrying that event. -/
theorem C2_witness :
    ([Event.trace []] : List Event).all goodEvent = true ∧
    invoke_agent sampleClock
        (Except.ok ⟨[], [Event.trace []] ++ Event.other PyVal.none :: []⟩) =
      Except.error (PyErr.exn unexpectedEventMsg (some (Event.other PyVal.none))) :=
  ⟨rfl, C2_unexpected_event_raises sampleClock [] [Event.trace []] [] PyVal.none rfl⟩

/-- C3: exceptions are never suppressed: an error from the underlying agent
API passes through invoke_agent unmodified (the except branch re-raises the
caught exception), and an error raised by any callable wrapped by watch
propagates unchanged out of the wrapper. -/
theorem C3_errors_propagate_unchanged :
    (∀ (ts : Nat → Int) (e : PyErr),
      invoke_agent ts (Except.error e) = Except.error e) ∧
    (∀ (ct : String) (fv : Bool)
      (f : PyVal → List PyVal → Except PyErr PyVal) (st : WatchState)
      (a : PyVal) (r : List PyVal) (e : PyErr),
      f a r = Except.error e → (watch ct fv f st a r).1 = Except.error e) := by
  constructor
  · intro ts e
    rfl
  · intro ct fv f st a r e hf
    simp [watch, hf]

/-- Witness for C3: a throttling error from the API comes back unchanged,
and a wrapped callable raising the same error propagates it unchanged. -/
theorem C3_witness :
    invoke_agent sampleClock (Except.error (PyErr.api sampleApiErrMsg)) =
      Except.error (PyErr.api sampleApiErrMsg) ∧
    (watch agentInProdCallType true
        (fun _ _ => Except.error (PyErr.api sampleApiErrMsg))
        ⟨0, 0, []⟩ PyVal.none []).1 = Except.error (PyErr.api sampleApiErrMsg) :=
  ⟨C3_errors_propagate_unchanged.1 sampleClock (PyErr.api sampleApiErrMsg),
    C3_errors_propagate_unchanged.2 agentInProdCallType true
      (fun _ _ => Except.error (PyErr.api sampleApiErrMsg)) ⟨0, 0, []⟩
      PyVal.none [] (PyErr.api sampleApiErrMsg) rfl⟩

/-- C6: on every successful call, the returned agent answer is the UTF-8
decoding of the bytes of the last chunk event only (earlier chunk payloads
are overwritten, not appended), while trace_data holds every trace event in
stream order, each stamped with a start time. -/
theorem C6_answer_is_last_chunk_traces_in_order (ts : Nat → Int) (md : PyDict)
    (evs : List Event) (md1 : PyDict) (ans : Option String) (td : List PyDict)
    (h : invoke_agent ts (Except.ok ⟨md, evs⟩) = Except.ok (md1, ans, td)) :
    (∃ bs, lastChunkBytes evs = some bs ∧ ans = decodeUtf8 bs) ∧
    (∃ cs : List Int, td = List.zipWith
        (fun t c => setKey t startTraceTimeKey (PyVal.int c)) (tracePayloads evs) cs ∧
      cs.length = (tracePayloads evs).length) := by
  obtain ⟨st1, hrun, hend, _, hans, htd⟩ :=
    invoke_agent_ok_inversion ts md evs md1 ans td h
  obtain ⟨ha, he, _, _, ht⟩ :=
    processEvents_ok_fields ts (ts 0) evs initLoopState st1 hrun
  have hany : evs.any isChunk = true := by
    rw [hend] at he
    simpa [initLoopState] using he.symm
  obtain ⟨bs, hbs⟩ := lastChunk_isSome_of_any evs hany
  constructor
  · refine ⟨bs, hbs, ?_⟩
    rw [hans, ha]
    simp [hbs]
  · obtain ⟨cs, hcs, hlen⟩ := ht
    refine ⟨cs, ?_, hlen⟩
    rw [htd, hcs]
    simp [initLoopState]

/-- Witness for C6: on the sample stream, the answer is the decoding of the
single chunk and the one trace payload is collected with its stamp. -/
theorem C6_witness :
    invoke_agent sampleClock (Except.ok ⟨[], sampleStream⟩) =
      Except.ok (sampleOut.1, sampleOut.2.1, sampleOut.2.2) ∧
    ((∃ bs, lastChunkBytes sampleStream = some bs ∧
        sampleOut.2.1 = decodeUtf8 bs) ∧
      (∃ cs : List Int, sampleOut.2.2 = List.zipWith
          (fun t c => setKey t startTraceTimeKey (PyVal.int c))
          (tracePayloads sampleStream) cs ∧
        cs.length = (tracePayloads sampleStream).length)) :=
  ⟨rfl, C6_answer_is_last_chunk_traces_in_order sampleClock [] sampleStream
    sampleOut.1 sampleOut.2.1 sampleOut.2.2 rfl⟩

/-- C7: for a finite stream of chunk and trace events with at least one
chunk, a successful return of invoke_agent consumes the stream to
completion: no event is left unread. -/
theorem C7_stream_consumed_to_completion (ts : Nat → Int) (md : PyDict)
    (evs : List Event) (out : PyDict × Option String × List PyDict)
    (h1 : evs.all chunkOrTrace = true) (h2 : evs.any isChunk = true)
    (h : invoke_agent ts (Except.ok ⟨md, evs⟩) = Except.ok out) :
    (processEvents ts (ts 0) initLoopState evs).2 = [] := by
  obtain ⟨st1, hrun, _⟩ :=
    invoke_agent_ok_inversion ts md evs out.1 out.2.1 out.2.2 h
  exact processEvents_ok_rem ts (ts 0) evs initLoopState st1 hrun

/-- Witness for C7: the sample stream is all chunk or trace, has a chunk,
succeeds, and is consumed with no remainder. -/
theorem C7_witness :
    sampleStream.all chunkOrTrace = true ∧ sampleStream.any isChunk = true ∧
    invoke_agent sampleClock (Except.ok ⟨[], sampleStream⟩) =
      Except.ok sampleOut ∧
    (processEvents sampleClock (sampleClock 0) initLoopState sampleStream).2 = [] :=
  ⟨rfl, rfl, rfl, C7_stream_consumed_to_completion sampleClock [] sampleStream
    sampleOut rfl rfl rfl⟩

/-- C8: on every successful call, the metadata of the response comes back
with exactly the two keys time_to_first_token and time_to_last_token
appended, every other key bound to its original value; and the first-token
time was assigned exactly once, at the first chunk event of the stream. -/
theorem C8_metadata_gains_exactly_two_keys (ts : Nat → Int) (md : PyDict)
    (evs : List Event) (md1 : PyDict) (ans : Option String) (td : List PyDict)
    (hk1 : timeToFirstTokenKey ∉ keysOf md)
    (hk2 : timeToLastTokenKey ∉ keysOf md)
    (h : invoke_agent ts (Except.ok ⟨md, evs⟩) = Except.ok (md1, ans, td)) :
    keysOf md1 = keysOf md ++ [timeToFirstTokenKey, timeToLastTokenKey] ∧
    (∀ k1, k1 ≠ timeToFirstTokenKey → k1 ≠ timeToLastTokenKey →
      lookupKey md1 k1 = lookupKey md k1) ∧
    (∃ i, ticksBeforeFirstChunk evs = some i ∧
      lookupKey md1 timeToFirstTokenKey = some (PyVal.int (ts (1 + i) - ts 0))) := by
  obtain ⟨st1, hrun, hend, ⟨ttf, taf, httf, htaf, hmd⟩, hans, htd⟩ :=
    invoke_agent_ok_inversion ts md evs md1 ans td h
  obtain ⟨_, _, _, hset, _⟩ :=
    processEvents_ok_fields ts (ts 0) evs initLoopState st1 hrun
  have hset2 := hset rfl
  have keydiff : timeToLastTokenKey ≠ timeToFirstTokenKey := by decide
  have hk2s : timeToLastTokenKey ∉ keysOf (setKey md timeToFirstTokenKey (PyVal.int ttf)) := by
    rw [keysOf_setKey_not_mem md timeToFirstTokenKey (PyVal.int ttf) hk1]
    intro hc
    rcases List.mem_append.1 hc with hc1 | hc2
    · exact hk2 hc1
    · exact keydiff (List.mem_singleton.1 hc2)
  refine ⟨?_, ?_, ?_⟩
  · rw [hmd, keysOf_setKey_not_mem _ timeToLastTokenKey _ hk2s,
      keysOf_setKey_not_mem md timeToFirstTokenKey _ hk1, List.append_assoc]
    rfl
  · intro k1 hne1 hne2
    rw [hmd, lookupKey_setKey_other _ _ _ _ hne2, lookupKey_setKey_other _ _ _ _ hne1]
  · have httf2 : (ticksBeforeFirstChunk evs).map (fun i => ts (initLoopState.k + i) - ts 0) =
        some ttf := by rw [← hset2.1, httf]
    cases hti : ticksBeforeFirstChunk evs with
    | none => rw [hti] at httf2; exact Option.noConfusion httf2
    | some i =>
      rw [hti] at httf2
      simp only [Option.map_some', Option.some.injEq] at httf2
      refine ⟨i, rfl, ?_⟩
      rw [hmd, lookupKey_setKey_other _ _ _ _ (fun hc => keydiff hc.symm),
        lookupKey_setKey_self md timeToFirstTokenKey _ hk1]
      have : initLoopState.k + i = 1 + i := rfl
      rw [this] at httf2
      rw [httf2]

/-- Witness for C8: on the sample stream from empty metadata, the result
metadata is exactly the two timing keys, and the first-token time is the
reading taken at the chunk event, one trace event into the stream. -/
theorem C8_witness :
    timeToFirstTokenKey ∉ keysOf ([] : PyDict) ∧
    timeToLastTokenKey ∉ keysOf ([] : PyDict) ∧
    invoke_agent sampleClock (Except.ok ⟨[], sampleStream⟩) =
      Except.ok (sampleOut.1, sampleOut.2.1, sampleOut.2.2) ∧
    (keysOf sampleOut.1 = keysOf ([] : PyDict) ++
        [timeToFirstTokenKey, timeToLastTokenKey] ∧
      (∀ k1, k1 ≠ timeToFirstTokenKey → k1 ≠ timeToLastTokenKey →
        lookupKey sampleOut.1 k1 = lookupKey ([] : PyDict) k1) ∧
      (∃ i, ticksBeforeFirstChunk sampleStream = some i ∧
        lookupKey sampleOut.1 timeToFirstTokenKey =
          some (PyVal.int (sampleClock (1 + i) - sampleClock 0)))) :=
  ⟨by decide, by decide, rfl,
    C8_metadata_gains_exactly_two_keys sampleClock [] sampleStream
      sampleOut.1 sampleOut.2.1 sampleOut.2.2 (by decide) (by decide) rfl⟩

/-- C4: every successful invocation of the watch-wrapped invoke_agent (with
feedback variables enabled) returns the original result triple augmented
with the newly minted run_id and observation_id: a five-element tuple whose
two identifier slots are non-null. -/
theorem C4_watched_call_returns_augmented_tuple (ts : Nat → Int)
    (api : Except PyErr AgentResponse) (st : WatchState)
    (arg1 : PyVal) (rest : List PyVal)
    (out : PyDict × Option String × List PyDict)
    (h : invoke_agent ts api = Except.ok out) :
    (invoke_agent_watched ts api st arg1 rest).1 =
      Except.ok (PyVal.list [PyVal.dict out.1, encodeOptStr out.2.1,
        PyVal.list (out.2.2.map PyVal.dict),
        PyVal.int st.run_id, PyVal.int st.next_obs]) ∧
    PyVal.int (st.run_id : Int) ≠ PyVal.none ∧
    PyVal.int (st.next_obs : Int) ≠ PyVal.none := by
  refine ⟨?_, fun hc => PyVal.noConfusion hc, fun hc => PyVal.noConfusion hc⟩
  simp [invoke_agent_watched, watch, Except.map, h, augment, encodeTriple]

/-- Witness for C4: wrapping the successful sample run returns the triple
plus the two identifiers of a concrete logging state. -/
theorem C4_witness :
    invoke_agent sampleClock (Except.ok ⟨[], sampleStream⟩) =
      Except.ok sampleOut ∧
    ((invoke_agent_watched sampleClock (Except.ok ⟨[], sampleStream⟩)
        ⟨7, 3, []⟩ (PyVal.str sampleAnswer) []).1 =
      Except.ok (PyVal.list [PyVal.dict sampleOut.1, encodeOptStr sampleOut.2.1,
        PyVal.list (sampleOut.2.2.map PyVal.dict),
        PyVal.int 7, PyVal.int 3]) ∧
      PyVal.int ((7 : Nat) : Int) ≠ PyVal.none ∧
      PyVal.int ((3 : Nat) : Int) ≠ PyVal.none) :=
  ⟨rfl, C4_watched_call_returns_augmented_tuple sampleClock
    (Except.ok ⟨[], sampleStream⟩) ⟨7, 3, []⟩ (PyVal.str sampleAnswer) []
    sampleOut rfl⟩

/-- C5: the wrapper logs only the first positional argument: two successful
calls of any wrapped callable that agree on the first argument, whatever
their trailing arguments, each append one record to the sink, and the
captured_input fields of the two records are the first argument, hence
identical (trailing arguments never reach the log). -/
theorem C5_only_first_argument_captured (ct : String) (fv : Bool)
    (f : PyVal → List PyVal → Except PyErr PyVal) (st : WatchState)
    (arg1 : PyVal) (rest1 rest2 : List PyVal) (o1 o2 : PyVal)
    (h1 : f arg1 rest1 = Except.ok o1) (h2 : f arg1 rest2 = Except.ok o2) :
    ∃ r1 r2 : LogRecord,
      (watch ct fv f st arg1 rest1).2.sink = st.sink ++ [r1] ∧
      (watch ct fv f st arg1 rest2).2.sink = st.sink ++ [r2] ∧
      r1.captured_input = arg1 ∧ r2.captured_input = arg1 ∧
      r1.captured_input = r2.captured_input := by
  refine ⟨⟨ct, st.run_id, st.next_obs, arg1, o1⟩,
    ⟨ct, st.run_id, st.next_obs, arg1, o2⟩, ?_, ?_, rfl, rfl, rfl⟩
  · simp [watch, h1]
  · simp [watch, h2]

/-- Sample wrapped callable for bookkeeping runs: echoes its trailing
arguments. -/
def sampleEcho : PyVal → List PyVal → Except PyErr PyVal :=
  fun _ r => Except.ok (PyVal.list r)

/-- Witness for C5: a callable echoing its trailing arguments, called with
two different trailing lists, logs the same captured input both times. -/
theorem C5_witness :
    sampleEcho (PyVal.str sampleAnswer) [PyVal.int 1] =
      Except.ok (PyVal.list [PyVal.int 1]) ∧
    sampleEcho (PyVal.str sampleAnswer) [PyVal.int 2] =
      Except.ok (PyVal.list [PyVal.int 2]) ∧
    ∃ r1 r2 : LogRecord,
      (watch agentInProdCallType true sampleEcho ⟨7, 3, []⟩
        (PyVal.str sampleAnswer) [PyVal.int 1]).2.sink =
        ([] : List LogRecord) ++ [r1] ∧
      (watch agentInProdCallType true sampleEcho ⟨7, 3, []⟩
        (PyVal.str sampleAnswer) [PyVal.int 2]).2.sink =
        ([] : List LogRecord) ++ [r2] ∧
      r1.captured_input = PyVal.str sampleAnswer ∧
      r2.captured_input = PyVal.str sampleAnswer ∧
      r1.captured_input = r2.captured_input :=
  ⟨rfl, rfl, C5_only_first_argument_captured agentInProdCallType true
    sampleEcho ⟨7, 3, []⟩ (PyVal.str sampleAnswer) [PyVal.int 1] [PyVal.int 2]
    (PyVal.list [PyVal.int 1]) (PyVal.list [PyVal.int 2]) rfl rfl⟩

/-- C9: across all wrapped calls of one logical session, the issued run_id
is the same stable value, and no two calls receive the same
observation_id. -/
theorem C9_run_id_stable_observation_id_unique (st : WatchState)
    (cs : List CallSpec) :
    (∀ p ∈ (runSession st cs).1, p.1 = st.run_id) ∧
    ((runSession st cs).1.map (fun p => p.2)).Nodup := by
  constructor
  · intro p hp
    rw [runSession_ids cs st] at hp
    obtain ⟨n, _, hn⟩ := List.mem_map.1 hp
    rw [← hn]
  · have h2 : ((runSession st cs).1.map fun p => p.2) =
        List.range' st.next_obs cs.length := by
      rw [runSession_ids cs st, List.map_map]
      simp
    rw [h2]
    exact List.nodup_range' st.next_obs cs.length

/-- Key under which a feedback payload references the run to score. -/
def fRunIdKey : String := "f_run_id"

/-- C10: every feedback payload is accepted: both feedback-collection
functions succeed even when the payload references a run_id that matches no
record in the sink, because no referential-integrity check is performed at
write time. -/
theorem C10_feedback_accepts_unmatched_ids (st : WatchState) (fb : PyVal)
    (rid : Nat)
    (href : fb.dictLookup fRunIdKey = some (PyVal.int (rid : Int)))
    (hmiss : (st.sink.all fun r => r.run_id != rid) = true) :
    (∃ v st1, observation_level_feedback st fb = (Except.ok v, st1)) ∧
    (∃ v st2, session_level_feedback st fb = (Except.ok v, st2)) :=
  ⟨⟨_, _, rfl⟩, ⟨_, _, rfl⟩⟩

/-- Witness for C10: a payload referencing run_id 5 while the sink holds
only a record for run_id 1 is accepted by both feedback functions. -/
theorem C10_witness :
    (PyVal.dict [(fRunIdKey, PyVal.int 5)]).dictLookup fRunIdKey =
      some (PyVal.int ((5 : Nat) : Int)) ∧
    (([⟨observationFeedbackCallType, 1, 0, PyVal.none, PyVal.none⟩] :
        List LogRecord).all fun r => r.run_id != 5) = true ∧
    ((∃ v st1, observation_level_feedback
        ⟨1, 1, [⟨observationFeedbackCallType, 1, 0, PyVal.none, PyVal.none⟩]⟩
        (PyVal.dict [(fRunIdKey, PyVal.int 5)]) = (Except.ok v, st1)) ∧
      (∃ v st2, session_level_feedback
        ⟨1, 1, [⟨observationFeedbackCallType, 1, 0, PyVal.none, PyVal.none⟩]⟩
        (PyVal.dict [(fRunIdKey, PyVal.int 5)]) = (Except.ok v, st2))) :=
  ⟨rfl, rfl, C10_feedback_accepts_unmatched_ids
    ⟨1, 1, [⟨observationFeedbackCallType, 1, 0, PyVal.none, PyVal.none⟩]⟩
    (PyVal.dict [(fRunIdKey, PyVal.int 5)]) 5 rfl rfl⟩
